import Mathlib

set_option maxRecDepth 40000

/-!
Verification of the Sensex expiry-calendar server (`src/server.cjs`).

The program manipulates calendar dates through the JavaScript `Date` library,
always at one fixed host timezone: the code's own naming (`formatDateIST`) and
purpose (BSE/Sensex trading calendar) fix the reference zone to IST, UTC+05:30
(India has no daylight saving).  We embed:

* an instant (a JS `Date`'s time value) as its millisecond count since the Unix
  epoch, an `Int`;
* a canonical `YYYY-MM-DD` date string as the day number of that calendar date
  (days since 1970-01-01), an `Int`.  For four-digit years the canonical string
  form is zero-padded, so lexicographic string order and equality coincide with
  order and equality of day numbers; lists of canonical strings are therefore
  embedded as lists of day numbers.

The conversions between day numbers and (year, month, day) triples below are
the proleptic Gregorian calendar, as computed by the JS runtime for
`getFullYear` / `getMonth` / `getDate` / `getDay`.  They are organized around
the March-based year (Jan and Feb counted with the preceding year), the
standard formulation for which the arithmetic is cleanly provable.
-/

namespace Sensex

/-- Milliseconds per day. -/
def msPerDay : Int := 86400000

/-- The host timezone offset in minutes east of UTC: IST = UTC+05:30.
`Date.prototype.getTimezoneOffset` returns the negation of this. -/
def tzMin : Int := 330

/-- Gregorian leap-year test. -/
def isLeap (y : Int) : Prop := (y % 4 = 0 ∧ y % 100 ≠ 0) ∨ y % 400 = 0

instance (y : Int) : Decidable (isLeap y) := by unfold isLeap; infer_instance

/-- Number of days in month `m` (1-12) of Gregorian year `y`. -/
def monthLen (y m : Int) : Int :=
  if m = 2 then (if isLeap y then 29 else 28)
  else if m = 4 ∨ m = 6 ∨ m = 9 ∨ m = 11 then 30 else 31

/-- Day count (in the March-based reckoning whose day 0 is 0000-03-01) of
March 1 of shifted year `y`: 365 days per year plus the accumulated Gregorian
leap days. -/
def yearStartMar (y : Int) : Int := 365 * y + y / 4 - y / 100 + y / 400

/-- The shifted (March-based) year containing March-based day `zs`:
a bracketed candidate from the exact average year length 146097/400,
corrected by at most one in each direction. -/
def marchYear (zs : Int) : Int :=
  let y0 := (400 * zs) / 146097
  let y1 := if zs < yearStartMar y0 then y0 - 1 else y0
  if yearStartMar (y1 + 1) ≤ zs then y1 + 1 else y1

/-- Day number (days since 1970-01-01) of the Gregorian date (y, m, d), for
`m` in 1..12; `d` may lie outside the month (day overflow/underflow continues
into adjacent months, exactly as JS `MakeDay` behaves).  1970-01-01 is
March-based day 719468. -/
def daysFromCivil (y m d : Int) : Int :=
  let y2 := if m ≤ 2 then y - 1 else y
  let mp := (m + 9) % 12
  yearStartMar y2 + ((153 * mp + 2) / 5 + (d - 1)) - 719468

/-- Gregorian date (y, m, d) of a day number. -/
def civilFromDays (z : Int) : Int × Int × Int :=
  let zs := z + 719468
  let y := marchYear zs
  let doy := zs - yearStartMar y
  let mp := (5 * doy + 2) / 153
  let d := doy - (153 * mp + 2) / 5 + 1
  let m := if mp < 10 then mp + 3 else mp - 9
  (if m ≤ 2 then y + 1 else y, m, d)

/-- Year assigned to a day number by the calendar. -/
def yearOf (z : Int) : Int := (civilFromDays z).1

/-- Month (1-12) assigned to a day number by the calendar. -/
def monthOf (z : Int) : Int := (civilFromDays z).2.1

/-- Day-of-month assigned to a day number by the calendar. -/
def dayOf (z : Int) : Int := (civilFromDays z).2.2

/-! ## The JS `Date` runtime model

A JS `Date` holds an instant, its time value in milliseconds since the Unix
epoch.  All component accessors (`getFullYear`, `getMonth`, `getDate`,
`getDay`) read the instant in the host's local timezone, here IST. -/
/-- Local calendar day (day number) containing instant `ms`:
ECMA `Day(LocalTime(t))`. -/
def jsLocalDay (ms : Int) : Int := (ms + tzMin * 60000) / msPerDay

/-- `Date.prototype.getDay` — weekday 0 (Sunday) .. 6 (Saturday) of the local
day; day 0 (1970-01-01) was a Thursday (= 4). -/
def jsGetDay (ms : Int) : Int := (jsLocalDay ms + 4) % 7

/-- `formatDateIST(date)` (src/server.cjs:13-17): shifts the instant by the
local offset and takes the ISO date part, i.e. renders the local calendar day
of the instant as a canonical string — in our embedding, its day number. -/
def formatDateIST (ms : Int) : Int := jsLocalDay ms

/-- ECMA `MakeFullYear`: the two-argument-constructor quirk mapping years
0..99 to 1900..1999. -/
def jsMakeFullYear (y : Int) : Int := if 0 ≤ y ∧ y ≤ 99 then 1900 + y else y

/-- Day number produced by `new Date(y, mo, d)` (0-based month `mo`, any
integers: month overflow rolls into the year, day overflow into the month,
per ECMA `MakeDay`). -/
def jsMakeLocalDay (y mo d : Int) : Int :=
  daysFromCivil (jsMakeFullYear y + mo / 12) (mo % 12 + 1) 1 + (d - 1)

/-- Time value of `new Date(y, mo, d)`: local midnight of that day. -/
def jsNewDateYMD (y mo d : Int) : Int := jsMakeLocalDay y mo d * msPerDay - tzMin * 60000

/-- Time value of `new Date(s)` for a canonical `YYYY-MM-DD` string with day
number `z`: ECMA parses date-only ISO strings as UTC midnight. -/
def utcMidnight (z : Int) : Int := z * msPerDay

/-- The calendar weekday of a day number (0 Sunday .. 6 Saturday). -/
def weekday (z : Int) : Int := (z + 4) % 7

/-! ## Sorting and deduplication

`Array.from(new Set(xs)).sort()` removes duplicates and sorts.  On canonical
date strings, lexicographic string order is day-number order, so the result is
the strictly sorted list of the distinct elements. -/
/-- `Array.from(new Set(l)).sort()` on a list of canonical dates. -/
def dedupSort (l : List Int) : List Int := l.dedup.insertionSort (· ≤ ·)

/-! ## TradingCalendar (src/server.cjs:18-33)

`isWeekend` reads `getDay()` of a `Date`; `isNonTradingDay` builds that `Date`
from the canonical string (ECMA: parsed as UTC midnight) and also tests
membership of the exact string in the holiday list (`Array.includes`).
`shiftToPreviousTradingDay` repeatedly moves the `Date` back one local
calendar day (`setDate(getDate() - 1)` keeps the local clock time; IST has no
DST, so the instant moves by exactly one day) and returns the first candidate
day that is a trading day.  The loop is unbounded in the source, so it is
embedded with explicit fuel; the theorems show the result is reached, and
stable, once the fuel covers the search. -/
/-- `isWeekend(d)` for a `Date` with time value `ms`. -/
def isWeekend (ms : Int) : Bool := jsGetDay ms == 0 || jsGetDay ms == 6

/-- `isNonTradingDay(dateStr, holidays)` on a canonical date (day number `z`)
and holiday list `H`. -/
def isNonTradingDay (z : Int) (H : List Int) : Bool :=
  isWeekend (utcMidnight z) || H.contains z

/-- One backward step per fuel unit: candidate days `z-1, z-2, ...`, returning
the first trading day. -/
def shiftAux : Nat → Int → List Int → Option Int
  | 0, _, _ => none
  | fuel + 1, z, H =>
    if isNonTradingDay (z - 1) H then shiftAux fuel (z - 1) H else some (z - 1)

/-- The spec's precondition on holiday sets: no full week plus buffer (8
consecutive days) is entirely non-trading. -/
def densityOK (H : List Int) : Prop :=
  ∀ z : Int, ∃ j : Nat, j < 8 ∧ isNonTradingDay (z - (j : Int)) H = false

/-! ## ExpiryGenerator (src/server.cjs:36-48)

`generateExpiries(startDate, monthsAhead)` builds, for each month offset, the
first-of-month `Date`, walks that month day by day while `getMonth()` still
equals the first-of-month's `getMonth()`, collects the days whose `getDay()`
is 4 (Thursday) rendered through `formatDateIST`, and finally deduplicates
and sorts.  The walking `Date` stays at local midnight, so the collected
value is the day number itself; the inner loop is fuel-bounded at 31, enough
for any month (the real loop leaves the month at the same point). -/
/-- The inner day loop of `generateExpiries`, on day numbers: while the
month (0-based) of the current day is `mtarget`, collect Thursdays. -/
def walkMonth : Nat → Int → Int → List Int
  | 0, _, _ => []
  | fuel + 1, z, mtarget =>
    if monthOf z - 1 = mtarget then
      (if weekday z = 4 then [z] else []) ++ walkMonth fuel (z + 1) mtarget
    else []

/-- `generateExpiries(startDate, monthsAhead)` for a parseable canonical
start date with day number `start` and a nonnegative integral `monthsAhead`:
`new Date(startDate)` is UTC midnight of `start`, and the code reads its
local-time `getFullYear()`/`getMonth()` components. -/
def generateExpiries (start : Int) (n : Nat) : List Int :=
  let y := yearOf (jsLocalDay (utcMidnight start))
  let m0 := monthOf (jsLocalDay (utcMidnight start)) - 1
  dedupSort ((List.range n).flatMap fun i =>
    let first := jsMakeLocalDay y (m0 + (i : Int)) 1
    walkMonth 31 first (monthOf first - 1))

/-- The Thursdays of month (y, m), ascending. -/
def thuOfMonth (y m : Int) : List Int :=
  ((List.range (monthLen y m).toNat).map
      (fun k : Nat => daysFromCivil y m 1 + (k : Int))).filter
    (fun z => weekday z == 4)

/-- The index of the month containing `z` on the infinite month axis. -/
def monthIdx (z : Int) : Int := 12 * yearOf z + (monthOf z - 1)

/-! ## DateNormalizer (src/server.cjs:51-85)

`parseAnyDate` receives an untyped cell.  We model the cell variants the
JS value space produces: absence (`null`/`undefined`), a finite number (a
spreadsheet day serial; modeled integral, as date serials are), a non-finite
number (`NaN`/`±Infinity`), or text.  The text cascade is: clean (trim,
commas and whitespace runs to single spaces), then `new Date(s)`, then the
`D[D]-MMM-YY[YY]` pattern, then a word-form retry that rebuilds the identical
cleaned string and so never adds a result.

`new Date(s)` itself is the V8 parser; the model covers the string families
this program can feed it — canonical ISO dates (parsed as UTC midnight) and
`Month D[,] Y` word forms (parsed as local midnight) — and is `none`
elsewhere.  Of V8's remaining legacy forms only `D-MMM-YYYY` can occur in
this program's data, and for it the regex branch below yields the identical
date, so the observable result agrees. -/

/-- A raw cell value as delivered by the table/text sources, following the
RawCell data model (absence, number, text; plus the non-finite numbers the
JS number type adds).  A cell materialized as a `Date` object (possible
under `cellDates`) stringifies and re-enters the same text cascade. -/
inductive RawCell where
  | empty : RawCell
  | num (n : Int) : RawCell
  | nanNum : RawCell
  | txt (s : String) : RawCell
deriving DecidableEq

/-- `fromExcelSerial(n)` (src/server.cjs:51-54): the instant
`Date.UTC(1899, 11, 30)` plus `n` days. -/
def fromExcelSerial (n : Int) : Int :=
  utcMidnight (daysFromCivil 1899 12 30) + n * msPerDay

/-- ECMA `TimeClip` bound: time values beyond ±8.64e15 ms make a `Date`
invalid (`isNaN(d)`). -/
def inTimeRange (ms : Int) : Prop :=
  -8640000000000000 ≤ ms ∧ ms ≤ 8640000000000000

instance (ms : Int) : Decidable (inTimeRange ms) := by unfold inTimeRange; infer_instance

/-- Split a character list at separator characters.  (The string layer works
on character lists throughout: `String.data` of a literal reduces in the
kernel, unlike the string library's well-founded-recursion functions.) -/
def splitChars (sep : Char → Bool) : List Char → List (List Char)
  | [] => [[]]
  | c :: cs =>
    match splitChars sep cs with
    | [] => [[c]]
    | t :: ts => if sep c then [] :: t :: ts else (c :: t) :: ts

/-- The characters `replace(/,/g, " ")` plus `\s` cover here. -/
def isSepChar (c : Char) : Bool := c == ' ' || c == ',' || c == '\t' || c == '\n' || c == '\r'

/-- The cleaning step (trim, commas to spaces, whitespace runs collapsed to
one space) leaves exactly these tokens, joined by single spaces; the empty
cleaned string corresponds to an empty token list. -/
def cleanTokens (s : String) : List (List Char) :=
  (splitChars isSepChar s.data).filter (fun t => !t.isEmpty)

def allDigits (t : List Char) : Bool := !t.isEmpty && t.all Char.isDigit

def natOfDigits (t : List Char) : Nat := t.foldl (fun acc c => 10 * acc + (c.toNat - 48)) 0

def upper (t : List Char) : List Char := t.map Char.toUpper

def isPrefOf : List Char → List Char → Bool
  | [], _ => true
  | _ :: _, [] => false
  | a :: as, b :: bs => a == b && isPrefOf as bs

def monthNames : List (List Char × Int) :=
  [("JANUARY".data, 1), ("FEBRUARY".data, 2), ("MARCH".data, 3), ("APRIL".data, 4),
   ("MAY".data, 5), ("JUNE".data, 6), ("JULY".data, 7), ("AUGUST".data, 8),
   ("SEPTEMBER".data, 9), ("OCTOBER".data, 10), ("NOVEMBER".data, 11), ("DECEMBER".data, 12)]

/-- V8's legacy month-word recognition: at least three characters forming a
prefix of a month name. -/
def monthFromWord (w : List Char) : Option Int :=
  if 3 ≤ w.length then
    monthNames.findSome? (fun p => if isPrefOf (upper w) p.1 then some p.2 else none)
  else none

/-- Canonical ISO `YYYY-MM-DD` (with valid component ranges, as V8 requires):
day number of the date. -/
def parseIsoDate (t : List Char) : Option Int :=
  match splitChars (fun c => c == '-') t with
  | [ys, ms, ds] =>
    if ys.length = 4 && allDigits ys && ms.length = 2 && allDigits ms
        && ds.length = 2 && allDigits ds then
      let y : Int := natOfDigits ys
      let mo : Int := natOfDigits ms
      let d : Int := natOfDigits ds
      if 1 ≤ mo ∧ mo ≤ 12 ∧ 1 ≤ d ∧ d ≤ monthLen y mo then some (daysFromCivil y mo d)
      else none
    else none
  | _ => none

/-- V8's legacy `Month D Y` word form (on cleaned tokens): local midnight of
the date.  Two-digit years map to 19xx/20xx around 50. -/
def parseWordDate (toks : List (List Char)) : Option Int :=
  match toks with
  | [w, ds, ys] =>
    match monthFromWord w with
    | some mo =>
      if allDigits ds && ds.length ≤ 2 && allDigits ys && ys.length ≤ 4 then
        let d : Int := natOfDigits ds
        let yr : Int := natOfDigits ys
        let y : Int := if 3 ≤ ys.length then yr
          else if yr < 50 then 2000 + yr else 1900 + yr
        if 1 ≤ d ∧ d ≤ monthLen y mo then some (jsNewDateYMD y (mo - 1) d) else none
      else none
    | none => none
  | _ => none

/-- `new Date(s)` on a cleaned string with token list `toks` (see the section
comment for the model's scope). -/
def jsNewDateString (toks : List (List Char)) : Option Int :=
  match toks with
  | [t] => (parseIsoDate t).map utcMidnight
  | _ => parseWordDate toks

def monthAbbrevs : List (List Char × Int) :=
  [("JAN".data, 1), ("FEB".data, 2), ("MAR".data, 3), ("APR".data, 4), ("MAY".data, 5),
   ("JUN".data, 6), ("JUL".data, 7), ("AUG".data, 8), ("SEP".data, 9), ("OCT".data, 10),
   ("NOV".data, 11), ("DEC".data, 12)]

def isWordChar (c : Char) : Bool := c.isAlphanum || c == '_'

/-- The strict pattern `^(\d{1,2})-(\w{3})-(\d{2,4})$` with a recognized
3-letter month abbreviation: (day, month, year-as-written).  A cleaned
string with two or more tokens contains a space and cannot match. -/
def matchDdMmmYy (t : List Char) : Option (Int × Int × Int) :=
  match splitChars (fun c => c == '-') t with
  | [ds, mstr, ys] =>
    if allDigits ds && ds.length ≤ 2 && mstr.length = 3 && mstr.all isWordChar
        && allDigits ys && 2 ≤ ys.length && ys.length ≤ 4 then
      match monthAbbrevs.lookup (upper mstr) with
      | some mo => some ((natOfDigits ds : Int), mo, (natOfDigits ys : Int))
      | none => none
    else none
  | _ => none

/-- The text cascade of `parseAnyDate` on the cleaned token list. -/
def parseAnyText (toks : List (List Char)) : Option Int :=
  match toks with
  | [] => none
  | _ =>
    match jsNewDateString toks with
    | some ms => some ms
    | none =>
      match toks with
      | [t] =>
        match matchDdMmmYy t with
        | some dmy =>
          let year := if dmy.2.2 < 100 then 2000 + dmy.2.2 else dmy.2.2
          some (jsNewDateYMD year (dmy.2.1 - 1) dmy.1)
        | none => none
      | _ => none

/-- `parseAnyDate(raw)` (src/server.cjs:55-85): the full normalization
cascade, returning the time value of the parsed `Date` (or `none`).  The
final word-form regex branch of the source rebuilds the identical cleaned
single-spaced string and re-parses it with `new Date`, which already failed,
so it never adds a result and has no separate model branch. -/
def parseAnyDate : RawCell → Option Int
  | RawCell.empty => none
  | RawCell.num n =>
    let d := fromExcelSerial n
    if inTimeRange d then some d else none
  | RawCell.nanNum => none
  | RawCell.txt s => parseAnyText (cleanTokens s)

/-! ## HolidaySetLoader (src/server.cjs:104-168)

The xlsx loader works on the already-parsed row table (the file read itself
is I/O, outside the engine).  `Math.max()` over no rows is `-Infinity`, for
which the column loop body never runs, exactly like the 0 stand-in here.
The diagnostics `samples` list is presentation-only and not modeled; the
chosen column and its success count are. -/
/-- The column-detection heuristic (src/server.cjs:110-116):
(bestCol, bestCount), ties to the lower index. -/
def bestColumn (rows : List (List RawCell)) : Nat × Nat :=
  let maxCols := (rows.map List.length).foldr max 0
  (List.range maxCols).foldl
    (fun best col =>
      let count := (rows.filter
        (fun row => (parseAnyDate (row.getD col RawCell.empty)).isSome)).length
      if best.2 < count then (col, count) else best)
    (0, 0)

/-- `loadHolidaysFromXlsx` on the parsed table (src/server.cjs:118-139):
normalize the chosen column, drop failures, dedupe, sort. -/
def loadHolidaysFromXlsx (rows : List (List RawCell)) : List Int :=
  let bestCol := (bestColumn rows).1
  dedupSort (rows.filterMap
    (fun row => (parseAnyDate (row.getD bestCol RawCell.empty)).map formatDateIST))

def trimChars (t : List Char) : List Char :=
  ((t.dropWhile Char.isWhitespace).reverse.dropWhile Char.isWhitespace).reverse

/-- `loadHolidaysFromCsv` (src/server.cjs:142-168) on the file's lines:
per nonblank (after trim) line, the first comma-separated nonempty token
that parses contributes the line's date. -/
def loadHolidaysFromCsv (lines : List String) : List Int :=
  let kept := (lines.map (fun l => trimChars l.data)).filter (fun l => !l.isEmpty)
  dedupSort (kept.filterMap (fun line =>
    (((splitChars (fun c => c == ',') line).map trimChars).filter
        (fun p => !p.isEmpty)).findSome?
      (fun p => (parseAnyText (cleanTokens ⟨p⟩)).map formatDateIST)))

/-! ## FallbackHolidaySet and refresh (src/server.cjs:171-213) -/
def known2025 : List String :=
  ["February 26,2025", "14-Mar-2025", "March 31,2025", "April 10,2025", "April 14,2025",
   "April 18,2025", "May 01,2025", "August 15,2025", "August 27,2025", "October 02,2025",
   "October 21,2025", "October 22,2025", "November 05,2025", "December 25,2025"]

/-- `fallbackHolidays(year)` (src/server.cjs:171-183).  Note the source body
never reads its `year` parameter. -/
def fallbackHolidays (year : Int) : List Int :=
  dedupSort (known2025.filterMap
    (fun s => (parseAnyDate (RawCell.txt s)).map formatDateIST))

/-- What the environment supplies to one `refreshHolidayCache` call: the
current year, the located source file (with its already-read content), and
whether reading/parsing it throws. -/
inductive HolidaySource where
  | xlsxFile (rows : List (List RawCell)) : HolidaySource
  | csvFile (lines : List String) : HolidaySource

structure RefreshEnv where
  year : Int
  source : Option HolidaySource
  loadThrows : Bool

/-- `refreshHolidayCache` (src/server.cjs:186-213) as a function from the
environment and the previous cache to the new cache.  The previous cache is
a parameter precisely to show the source never consults it: every path ends
in an unconditional assignment. -/
def refreshHolidayCache (env : RefreshEnv) (oldCache : List Int) : List Int :=
  if env.loadThrows then
    fallbackHolidays env.year
  else
    let loaded :=
      match env.source with
      | some (HolidaySource.xlsxFile rows) => loadHolidaysFromXlsx rows
      | some (HolidaySource.csvFile lines) => loadHolidaysFromCsv lines
      | none => fallbackHolidays env.year
    if loaded = [] then fallbackHolidays env.year else loaded

/-! ## The `/api/sensex/expiries` route (src/server.cjs:232-247) -/
/-- `generateExpiries(startDate, monthsAhead)` at the request level:
`new Date(startDate)` on an unparseable string is an Invalid Date, its
`getFullYear`/`getMonth` are `NaN`, and every inner loop guard
`d.getMonth() === month` is `NaN === NaN` = false, so nothing is collected;
a negative (or `NaN`) `monthsAhead` fails the outer guard `m < monthsAhead`
at `m = 0`.  `Int.toNat` clamps negatives to zero iterations accordingly. -/
def generateExpiriesReq (start : Option Int) (monthsAhead : Int) : List Int :=
  match start with
  | some z => generateExpiries z monthsAhead.toNat
  | none => dedupSort []

/-- The adjusted series returned by the route: each raw expiry is shifted to
the previous trading day when non-trading.  The unbounded shift loop carries
explicit fuel (its value is fuel-independent once the fuel covers the
search). -/
def adjustExpiries (fuel : Nat) (start : Int) (n : Nat) (H : List Int) : List Int :=
  (generateExpiries start n).map (fun z =>
    if isNonTradingDay z H then (shiftAux fuel z H).getD z else z)

/-! ## Theorems -/

theorem yearStartMar_succ (y : Int) :
    yearStartMar (y + 1) = yearStartMar y + (if isLeap (y + 1) then 366 else 365) := by
  unfold yearStartMar isLeap
  split_ifs <;> omega

theorem yearStartMar_mono {a b : Int} (h : a ≤ b) : yearStartMar a ≤ yearStartMar b := by
  unfold yearStartMar
  omega

theorem marchYear_bracket (zs : Int) :
    yearStartMar ((400 * zs) / 146097 - 1) ≤ zs ∧
      zs < yearStartMar ((400 * zs) / 146097 + 2) := by
  unfold yearStartMar
  omega

/-- `marchYear` finds the unique year whose span contains `zs`. -/
theorem marchYear_spec (zs : Int) :
    yearStartMar (marchYear zs) ≤ zs ∧ zs < yearStartMar (marchYear zs + 1) := by
  have hb := marchYear_bracket zs
  unfold marchYear
  dsimp only
  set y0 := (400 * zs) / 146097 with hy0
  by_cases h1 : zs < yearStartMar y0
  · rw [if_pos h1]
    have he : y0 - 1 + 1 = y0 := by ring
    by_cases h2 : yearStartMar (y0 - 1 + 1) ≤ zs
    · rw [he] at h2; omega
    · rw [if_neg h2, he] at *
      exact ⟨hb.1, by omega⟩
  · rw [if_neg h1]
    by_cases h2 : yearStartMar (y0 + 1) ≤ zs
    · rw [if_pos h2]
      have he : y0 + 1 + 1 = y0 + 2 := by ring
      rw [he]
      exact ⟨h2, hb.2⟩
    · rw [if_neg h2]
      omega

/-- `marchYear` is determined by the bracketing property. -/
theorem marchYear_eq_of (zs y : Int) (h1 : yearStartMar y ≤ zs)
    (h2 : zs < yearStartMar (y + 1)) : marchYear zs = y := by
  have hs := marchYear_spec zs
  by_contra hne
  rcases lt_or_gt_of_ne hne with hlt | hgt
  · have := yearStartMar_mono (show marchYear zs + 1 ≤ y by omega)
    omega
  · have := yearStartMar_mono (show y + 1 ≤ marchYear zs by omega)
    omega

/-- Both bounds of the year-to-year gap, leap-blind. -/
theorem yearStartMar_succ_bounds (y : Int) :
    yearStartMar y + 365 ≤ yearStartMar (y + 1) ∧
      yearStartMar (y + 1) ≤ yearStartMar y + 366 := by
  unfold yearStartMar
  omega

theorem marchYear_add (y2 doy : Int) (h0 : 0 ≤ doy)
    (h1 : doy < yearStartMar (y2 + 1) - yearStartMar y2) :
    marchYear (yearStartMar y2 + doy) = y2 :=
  marchYear_eq_of _ _ (by omega) (by omega)

theorem daysFromCivil_civilFromDays (z : Int) :
    daysFromCivil (yearOf z) (monthOf z) (dayOf z) = z := by
  have hs := marchYear_spec (z + 719468)
  have hsucc := yearStartMar_succ (marchYear (z + 719468))
  unfold yearOf monthOf dayOf civilFromDays daysFromCivil
  dsimp only
  unfold isLeap at hsucc
  split_ifs at hsucc ⊢ <;>
    (try simp only [add_sub_cancel_right]) <;> omega

theorem civilFromDays_valid (z : Int) :
    1 ≤ monthOf z ∧ monthOf z ≤ 12 ∧ 1 ≤ dayOf z ∧
      dayOf z ≤ monthLen (yearOf z) (monthOf z) := by
  have hs := marchYear_spec (z + 719468)
  have hsucc := yearStartMar_succ (marchYear (z + 719468))
  unfold yearOf monthOf dayOf civilFromDays monthLen
  dsimp only
  unfold isLeap at hsucc ⊢
  split_ifs at hsucc ⊢ <;> omega

theorem civilFromDays_daysFromCivil (y m d : Int) (hm1 : 1 ≤ m) (hm2 : m ≤ 12)
    (hd1 : 1 ≤ d) (hd2 : d ≤ monthLen y m) :
    civilFromDays (daysFromCivil y m d) = (y, m, d) := by
  unfold monthLen isLeap at hd2
  unfold civilFromDays daysFromCivil
  dsimp only
  rw [Prod.mk.injEq, Prod.mk.injEq]
  by_cases hm : m ≤ 2
  · rw [if_pos hm, show ∀ t : Int, t - 719468 + 719468 = t from fun t => by ring,
      marchYear_add (y - 1) _ (by omega)
        (by
          have hsucc := yearStartMar_succ (y - 1)
          rw [show y - 1 + 1 = y from by ring] at hsucc ⊢
          unfold isLeap at hsucc
          split_ifs at hsucc hd2 <;> omega)]
    interval_cases m <;> split_ifs at hd2 ⊢ <;> omega
  · rw [if_neg hm, show ∀ t : Int, t - 719468 + 719468 = t from fun t => by ring,
      marchYear_add y _ (by omega)
        (by
          have hsucc := yearStartMar_succ_bounds y
          omega)]
    interval_cases m <;> split_ifs at hd2 ⊢ <;> omega

/-- The day after the last day of month (y, m) is the first day of the next
month (rolling into January of the next year after December). -/
theorem daysFromCivil_month_succ (y m : Int) (hm1 : 1 ≤ m) (hm2 : m ≤ 12) :
    daysFromCivil y m (monthLen y m + 1)
      = if m = 12 then daysFromCivil (y + 1) 1 1 else daysFromCivil y (m + 1) 1 := by
  unfold daysFromCivil monthLen isLeap yearStartMar
  interval_cases m <;> (dsimp only) <;> split_ifs <;> omega

theorem jsLocalDay_utcMidnight (z : Int) : jsLocalDay (utcMidnight z) = z := by
  unfold jsLocalDay utcMidnight tzMin msPerDay
  omega

theorem jsLocalDay_jsNewDateYMD (y mo d : Int) :
    jsLocalDay (jsNewDateYMD y mo d) = jsMakeLocalDay y mo d := by
  unfold jsLocalDay jsNewDateYMD tzMin msPerDay
  omega

theorem jsGetDay_utcMidnight (z : Int) : jsGetDay (utcMidnight z) = weekday z := by
  unfold jsGetDay weekday
  rw [jsLocalDay_utcMidnight]

theorem mem_dedupSort (a : Int) (l : List Int) : a ∈ dedupSort l ↔ a ∈ l := by
  unfold dedupSort
  rw [(List.perm_insertionSort _ _).mem_iff, List.mem_dedup]

theorem pairwise_lt_dedupSort (l : List Int) : (dedupSort l).Pairwise (· < ·) := by
  have hs : (dedupSort l).Pairwise (· ≤ ·) := List.sorted_insertionSort _ _
  have hn : (dedupSort l).Pairwise (· ≠ ·) :=
    ((List.perm_insertionSort _ _).nodup_iff).mpr (List.nodup_dedup l)
  exact (hs.and hn).imp fun h => lt_of_le_of_ne h.1 h.2

/-- A strictly sorted list is already deduplicated and sorted. -/
theorem dedupSort_eq_self {l : List Int} (h : l.Pairwise (· < ·)) : dedupSort l = l := by
  unfold dedupSort
  rw [List.dedup_eq_self.mpr (h.imp fun hab => ne_of_lt hab)]
  exact List.Sorted.insertionSort_eq (h.imp fun hab => le_of_lt hab)

theorem isNonTradingDay_eq_true_iff (z : Int) (H : List Int) :
    isNonTradingDay z H = true ↔ weekday z = 0 ∨ weekday z = 6 ∨ z ∈ H := by
  unfold isNonTradingDay isWeekend
  rw [jsGetDay_utcMidnight]
  simp [or_assoc]

theorem isNonTradingDay_eq_false_iff (z : Int) (H : List Int) :
    isNonTradingDay z H = false ↔ ¬(weekday z = 0 ∨ weekday z = 6 ∨ z ∈ H) := by
  rw [← isNonTradingDay_eq_true_iff]
  simp

/-- If the holiday list contains no Thursdays, every 8-day window contains a
trading day (the Thursday in it). -/
theorem densityOK_of_no_thursday (H : List Int) (hH : ∀ h ∈ H, weekday h ≠ 4) :
    densityOK H := by
  intro z
  refine ⟨(z % 7).toNat, ?_, ?_⟩
  · omega
  · have hw : weekday (z - ((z % 7).toNat : Int)) = 4 := by
      unfold weekday
      omega
    rw [isNonTradingDay_eq_false_iff, hw]
    push_neg
    refine ⟨by omega, by omega, fun hmem => hH _ hmem hw⟩

/-- If the loop reaches its answer with some fuel, more fuel gives the same
answer. -/
theorem shiftAux_fuel_mono (r : Int) (H : List Int) :
    ∀ fuel z, shiftAux fuel z H = some r → shiftAux (fuel + 1) z H = some r := by
  intro fuel
  induction fuel with
  | zero => intro z h; simp [shiftAux] at h
  | succ f ih =>
    intro z h
    rw [shiftAux] at h
    rw [shiftAux]
    split_ifs at h ⊢ with hc
    · exact ih _ h
    · exact h

theorem shiftAux_fuel_le (r : Int) (H : List Int) (f f' : Nat) (hle : f ≤ f')
    (z : Int) (h : shiftAux f z H = some r) : shiftAux f' z H = some r := by
  obtain ⟨k, rfl⟩ := Nat.exists_eq_add_of_le hle
  clear hle
  induction k with
  | zero => exact h
  | succ n ih => exact shiftAux_fuel_mono r H (f + n) z ih

/-- If days `z-1 .. z-j` are non-trading and `z-1-j` is trading, the loop
stops at `z-1-j` given fuel beyond `j`. -/
theorem shiftAux_reaches (H : List Int) :
    ∀ (j : Nat) (z : Int) (fuel : Nat),
      (∀ k : Nat, k < j → isNonTradingDay (z - 1 - (k : Int)) H = true) →
      isNonTradingDay (z - 1 - (j : Int)) H = false →
      j < fuel → shiftAux fuel z H = some (z - 1 - (j : Int)) := by
  intro j
  induction j with
  | zero =>
    intro z fuel _ ht hf
    obtain ⟨f, rfl⟩ : ∃ f, fuel = f + 1 := ⟨fuel - 1, by omega⟩
    rw [shiftAux]
    rw [show z - 1 - ((0 : Nat) : Int) = z - 1 by push_cast; ring] at ht
    rw [if_neg (by rw [ht]; exact Bool.false_ne_true)]
    rw [show z - 1 - ((0 : Nat) : Int) = z - 1 by push_cast; ring]
  | succ n ih =>
    intro z fuel hall ht hf
    obtain ⟨f, rfl⟩ : ∃ f, fuel = f + 1 := ⟨fuel - 1, by omega⟩
    rw [shiftAux]
    rw [if_pos (by
      have := hall 0 (by omega)
      rwa [show z - 1 - ((0 : Nat) : Int) = z - 1 by push_cast; ring] at this)]
    have hres := ih (z - 1) f
      (fun k hk => by
        have := hall (k + 1) (by omega)
        rwa [show z - 1 - ((k + 1 : Nat) : Int) = z - 1 - 1 - (k : Int) by push_cast; ring] at this)
      (by rwa [show z - 1 - ((n + 1 : Nat) : Int) = z - 1 - 1 - (n : Int) by push_cast; ring] at ht)
      (by omega)
    rw [hres]
    congr 1
    push_cast
    ring

/-- Under the density precondition the backward scan terminates: with any
fuel of at least 8 it returns the nearest preceding trading day. -/
theorem shift_finds (z : Int) (H : List Int) (hd : densityOK H) :
    ∃ r, r < z ∧ isNonTradingDay r H = false ∧
      (∀ w, r < w → w < z → isNonTradingDay w H = true) ∧
      ∀ fuel, 8 ≤ fuel → shiftAux fuel z H = some r := by
  obtain ⟨j0, hj8, hjt⟩ := hd (z - 1)
  have hex : ∃ j : Nat, isNonTradingDay (z - 1 - (j : Int)) H = false := by
    refine ⟨j0, ?_⟩
    rw [show z - 1 - (j0 : Int) = z - 1 - j0 by ring] at hjt ⊢
    exact hjt
  classical
  set jm := Nat.find hex with hjm
  have hjmt : isNonTradingDay (z - 1 - (jm : Int)) H = false := Nat.find_spec hex
  have hjmin : ∀ k : Nat, k < jm → isNonTradingDay (z - 1 - (k : Int)) H = true := by
    intro k hk
    have := Nat.find_min hex hk
    revert this
    cases h : isNonTradingDay (z - 1 - (k : Int)) H
    · intro hc; exact absurd rfl hc
    · intro _; rfl
  have hjm8 : jm < 8 := by
    have : jm ≤ j0 := Nat.find_min' hex (by
      rw [show z - 1 - (j0 : Int) = z - 1 - j0 by ring]
      exact hjt)
    omega
  refine ⟨z - 1 - (jm : Int), by omega, hjmt, ?_, ?_⟩
  · intro w h1 h2
    have hk : ∃ k : Nat, (k : Int) = z - 1 - w ∧ k < jm := by
      refine ⟨(z - 1 - w).toNat, by omega, by omega⟩
    obtain ⟨k, hkw, hkj⟩ := hk
    have := hjmin k hkj
    rwa [show z - 1 - (k : Int) = w by omega] at this
  · intro fuel hf
    exact shiftAux_reaches H jm z fuel hjmin hjmt (by omega)

theorem monthLen_bounds (y m : Int) : 28 ≤ monthLen y m ∧ monthLen y m ≤ 31 := by
  unfold monthLen
  split_ifs <;> omega

theorem daysFromCivil_day_shift (y m d : Int) :
    daysFromCivil y m d = daysFromCivil y m 1 + (d - 1) := by
  unfold daysFromCivil
  dsimp only
  ring

theorem monthOf_daysFromCivil_first (y m : Int) (hm1 : 1 ≤ m) (hm2 : m ≤ 12) :
    monthOf (daysFromCivil y m 1) = m := by
  unfold monthOf
  rw [civilFromDays_daysFromCivil y m 1 hm1 hm2 le_rfl
    (by have := monthLen_bounds y m; omega)]

/-- The day walk starting at day `j+1` of month (y, m) collects exactly the
Thursdays among days `j+1 .. monthLen`, given enough fuel. -/
theorem walkMonth_from (y m : Int) (hm1 : 1 ≤ m) (hm2 : m ≤ 12) :
    ∀ (fuel j : Nat), (j : Int) ≤ monthLen y m →
      ((monthLen y m).toNat - j) ≤ fuel →
      walkMonth fuel (daysFromCivil y m ((j : Int) + 1)) (m - 1)
        = ((List.range' j ((monthLen y m).toNat - j)).map
            (fun k : Nat => daysFromCivil y m 1 + (k : Int))).filter
          (fun z => weekday z == 4) := by
  intro fuel
  induction fuel with
  | zero =>
    intro j hjle hfuel
    have h0 : (monthLen y m).toNat - j = 0 := by omega
    rw [h0]
    rfl
  | succ f ih =>
    intro j hjle hfuel
    by_cases hj : (j : Int) = monthLen y m
    · have h0 : (monthLen y m).toNat - j = 0 := by omega
      rw [h0]
      simp only [walkMonth]
      rw [if_neg ?hcond]
      · rfl
      case hcond =>
        rw [hj, daysFromCivil_month_succ y m hm1 hm2]
        by_cases h12 : m = 12
        · rw [if_pos h12, monthOf_daysFromCivil_first (y + 1) 1 (by omega) (by omega)]
          omega
        · rw [if_neg h12, monthOf_daysFromCivil_first y (m + 1) (by omega) (by omega)]
          omega
    · have hjlt : (j : Int) < monthLen y m := lt_of_le_of_ne hjle hj
      have hA := civilFromDays_daysFromCivil y m ((j : Int) + 1) hm1 hm2 (by omega) (by omega)
      have hrem : (monthLen y m).toNat - j = ((monthLen y m).toNat - (j + 1)) + 1 := by omega
      rw [hrem, List.range'_succ]
      simp only [walkMonth]
      rw [if_pos (by unfold monthOf; rw [hA])]
      have hnext : daysFromCivil y m ((j : Int) + 1) + 1
          = daysFromCivil y m (((j + 1 : Nat) : Int) + 1) := by
        rw [daysFromCivil_day_shift y m ((j : Int) + 1),
          daysFromCivil_day_shift y m (((j + 1 : Nat) : Int) + 1)]
        push_cast
        ring
      rw [hnext, ih (j + 1) (by push_cast; omega) (by omega)]
      rw [List.map_cons, List.filter_cons]
      have hz : daysFromCivil y m 1 + (j : Int) = daysFromCivil y m ((j : Int) + 1) := by
        rw [daysFromCivil_day_shift y m ((j : Int) + 1)]
        ring
      rw [hz]
      by_cases hthu : weekday (daysFromCivil y m ((j : Int) + 1)) = 4
      · rw [if_pos hthu, if_pos (by rw [hthu]; rfl)]
        rfl
      · rw [if_neg hthu, if_neg (by simpa using hthu)]
        rfl

theorem mem_thuOfMonth (y m z : Int) (hm1 : 1 ≤ m) (hm2 : m ≤ 12) :
    z ∈ thuOfMonth y m ↔ weekday z = 4 ∧ yearOf z = y ∧ monthOf z = m := by
  unfold thuOfMonth
  rw [List.mem_filter]
  simp only [List.mem_map, List.mem_range, beq_iff_eq]
  constructor
  · rintro ⟨⟨k, hk, rfl⟩, hthu⟩
    have hklen : (k : Int) < monthLen y m := by omega
    have hz : daysFromCivil y m 1 + (k : Int) = daysFromCivil y m ((k : Int) + 1) := by
      rw [daysFromCivil_day_shift y m ((k : Int) + 1)]
      ring
    have hA := civilFromDays_daysFromCivil y m ((k : Int) + 1) hm1 hm2 (by omega) (by omega)
    refine ⟨hthu, ?_, ?_⟩
    · rw [hz]; unfold yearOf; rw [hA]
    · rw [hz]; unfold monthOf; rw [hA]
  · rintro ⟨hthu, hyz, hmz⟩
    have hV := civilFromDays_valid z
    have hRT := daysFromCivil_civilFromDays z
    rw [hyz, hmz] at hV hRT
    refine ⟨⟨(dayOf z - 1).toNat, by omega, ?_⟩, hthu⟩
    rw [daysFromCivil_day_shift y m (dayOf z)] at hRT
    omega

/-- One month of the generator loop: the walk from the constructed
first-of-month collects that month's Thursdays. -/
theorem walkMonth_eq_thu (y mo : Int) (hfy : jsMakeFullYear y = y) :
    walkMonth 31 (jsMakeLocalDay y mo 1) (monthOf (jsMakeLocalDay y mo 1) - 1)
      = thuOfMonth (y + mo / 12) (mo % 12 + 1) := by
  have hlen := monthLen_bounds (y + mo / 12) (mo % 12 + 1)
  have hfirst : jsMakeLocalDay y mo 1 = daysFromCivil (y + mo / 12) (mo % 12 + 1) 1 := by
    unfold jsMakeLocalDay
    rw [hfy]
    omega
  have hmOf : monthOf (jsMakeLocalDay y mo 1) = mo % 12 + 1 := by
    rw [hfirst]
    exact monthOf_daysFromCivil_first _ _ (by omega) (by omega)
  have hmain := walkMonth_from (y + mo / 12) (mo % 12 + 1) (by omega) (by omega) 31 0
    (by omega) (by omega)
  simp only [Nat.cast_zero, zero_add, Nat.sub_zero] at hmain
  rw [hmOf, hfirst, hmain]
  unfold thuOfMonth
  rw [List.range_eq_range']

/-- Membership in the raw expiry list: exactly the Thursdays of the
`n` consecutive months starting at `start`'s month (when the start year is
outside the constructor's 0..99 remapping range). -/
theorem generateExpiries_mem (start : Int) (n : Nat)
    (hy : jsMakeFullYear (yearOf start) = yearOf start) (z : Int) :
    z ∈ generateExpiries start n ↔
      weekday z = 4 ∧ ∃ i : Nat, i < n ∧ monthIdx z = monthIdx start + (i : Int) := by
  have hVs := civilFromDays_valid start
  unfold generateExpiries
  dsimp only
  simp only [jsLocalDay_utcMidnight]
  rw [mem_dedupSort]
  simp only [List.mem_flatMap, List.mem_range]
  constructor
  · rintro ⟨i, hi, hz⟩
    rw [walkMonth_eq_thu (yearOf start) (monthOf start - 1 + (i : Int)) hy,
      mem_thuOfMonth _ _ z (by omega) (by omega)] at hz
    obtain ⟨hthu, hyz, hmz⟩ := hz
    refine ⟨hthu, i, hi, ?_⟩
    unfold monthIdx
    omega
  · rintro ⟨hthu, i, hi, hidx⟩
    refine ⟨i, hi, ?_⟩
    rw [walkMonth_eq_thu (yearOf start) (monthOf start - 1 + (i : Int)) hy,
      mem_thuOfMonth _ _ z (by omega) (by omega)]
    have hVz := civilFromDays_valid z
    unfold monthIdx at hidx
    exact ⟨hthu, by omega, by omega⟩

/-! ## Monotonicity of the adjustment, and fuel stability -/
/-- The per-date adjustment is monotone: an earlier raw date never lands
after a later one. -/
theorem adjust_mono (H : List Int) (hd : densityOK H) (fuel : Nat) (hf : 8 ≤ fuel)
    (a b : Int) (hab : a < b) :
    (if isNonTradingDay a H then (shiftAux fuel a H).getD a else a)
      ≤ (if isNonTradingDay b H then (shiftAux fuel b H).getD b else b) := by
  obtain ⟨ra, hra1, hra2, hra3, hra4⟩ := shift_finds a H hd
  obtain ⟨rb, hrb1, hrb2, hrb3, hrb4⟩ := shift_finds b H hd
  rw [hra4 fuel hf, hrb4 fuel hf]
  simp only [Option.getD_some]
  split_ifs with h1 h2 h3
  · -- both non-trading: rb < ra would put the trading day ra inside (rb, b)
    by_contra hlt
    have hcon : isNonTradingDay ra H = true := hrb3 ra (by omega) (by omega)
    rw [hra2] at hcon
    exact Bool.false_ne_true hcon
  · -- a non-trading, b trading
    omega
  · -- a trading, b non-trading: rb < a would put the trading day a in (rb, b)
    by_contra hlt
    exact h1 (hrb3 a (by omega) hab)
  · omega

/-- More fuel than 8 does not change the adjusted series (the loop's answer
is reached within the density bound). -/
theorem adjustExpiries_fuel_stable (start : Int) (n : Nat) (H : List Int)
    (hd : densityOK H) (fuel : Nat) (hf : 8 ≤ fuel) :
    adjustExpiries fuel start n H = adjustExpiries 8 start n H := by
  unfold adjustExpiries
  refine List.map_congr_left fun z _ => ?_
  obtain ⟨r, _, _, _, h4⟩ := shift_finds z H hd
  rw [h4 fuel hf, h4 8 le_rfl]

theorem adjustExpiries_sorted (start : Int) (n : Nat) (H : List Int)
    (hd : densityOK H) (fuel : Nat) (hf : 8 ≤ fuel) :
    (adjustExpiries fuel start n H).Pairwise (· ≤ ·) := by
  unfold adjustExpiries
  have hraw : (generateExpiries start n).Pairwise (· < ·) := by
    unfold generateExpiries
    exact pairwise_lt_dedupSort _
  exact hraw.map _ (fun a b hab => adjust_mono H hd fuel hf a b hab)

/-- The empty holiday set satisfies the density precondition. -/
theorem densityOK_nil : densityOK ([] : List Int) :=
  densityOK_of_no_thursday [] (by intro h hmem; cases hmem)

/-- The concrete holiday set of the C4 counterexample (2025-10-03 and
2025-10-06 .. 2025-10-09) satisfies the density precondition: every 8-day
window contains 2025-10-02, 2025-10-10, or a Thursday outside the set. -/
theorem densityOK_c4 :
    densityOK [20364, 20367, 20368, 20369, 20370] := by
  intro z
  by_cases h1 : 20364 ≤ z ∧ z ≤ 20370
  · refine ⟨(z - 20363).toNat, by omega, ?_⟩
    rw [show z - (((z - 20363).toNat : Nat) : Int) = 20363 by omega]
    decide
  · by_cases h2 : 20371 ≤ z ∧ z ≤ 20378
    · refine ⟨(z - 20371).toNat, by omega, ?_⟩
      rw [show z - (((z - 20371).toNat : Nat) : Int) = 20371 by omega]
      decide
    · refine ⟨(z % 7).toNat, by omega, ?_⟩
      have hw : weekday (z - (((z % 7).toNat : Nat) : Int)) = 4 := by
        unfold weekday
        omega
      rw [isNonTradingDay_eq_false_iff, hw]
      push_neg
      refine ⟨by omega, by omega, fun hmem => ?_⟩
      simp only [List.mem_cons, List.not_mem_nil, or_false] at hmem
      omega

/-! ## Claim theorems -/
/-- C2: `isNonTradingDay(d, H)` is true exactly when the canonical date `d`
falls on a Saturday or Sunday (by the calendar's own weekday) or is a member
of `H`; in particular every Saturday and Sunday is non-trading regardless of
`H`. -/
theorem claim_C2_isNonTradingDay (z : Int) (H : List Int) :
    isNonTradingDay z H = true ↔ weekday z = 0 ∨ weekday z = 6 ∨ z ∈ H :=
  isNonTradingDay_eq_true_iff z H

/-- C3: under the density precondition, `shiftToPreviousTradingDay`
terminates (the fuelled loop stabilizes from fuel 8 on), returning a date
strictly earlier than `d` that is a trading day — never `d` itself — and
it is the nearest such day (everything strictly between is non-trading). -/
theorem claim_C3_shift_spec (z : Int) (H : List Int) (hd : densityOK H) :
    ∃ r, r < z ∧ isNonTradingDay r H = false ∧
      (∀ w, r < w → w < z → isNonTradingDay w H = true) ∧
      ∀ fuel, 8 ≤ fuel → shiftAux fuel z H = some r :=
  shift_finds z H hd

theorem claim_C3_shift_spec_witness :
    densityOK ([] : List Int) ∧
      ∃ r, r < 20363 ∧ isNonTradingDay r [] = false ∧
        (∀ w, r < w → w < 20363 → isNonTradingDay w [] = true) ∧
        ∀ fuel, 8 ≤ fuel → shiftAux fuel 20363 [] = some r :=
  ⟨densityOK_nil, claim_C3_shift_spec 20363 [] densityOK_nil⟩

/-- C4 counterexample: with the density-satisfying holiday set
{2025-10-03, 2025-10-06, 2025-10-07, 2025-10-08, 2025-10-09}, the adjusted
series for October 2025 contains 2025-10-02 twice (the holiday Thursday
2025-10-09 shifts back onto the previous expiry), so it is not
deduplicated/strictly ascending, for every sufficient fuel. -/
theorem claim_C4_counterexample :
    densityOK [20364, 20367, 20368, 20369, 20370] ∧
      (∀ fuel, 8 ≤ fuel →
        adjustExpiries fuel (daysFromCivil 2025 10 1) 1 [20364, 20367, 20368, 20369, 20370]
          = [daysFromCivil 2025 10 2, daysFromCivil 2025 10 2, daysFromCivil 2025 10 16,
             daysFromCivil 2025 10 23, daysFromCivil 2025 10 30]) ∧
      ¬ ([daysFromCivil 2025 10 2, daysFromCivil 2025 10 2, daysFromCivil 2025 10 16,
          daysFromCivil 2025 10 23, daysFromCivil 2025 10 30].Pairwise (· < ·)) := by
  refine ⟨densityOK_c4, fun fuel hf => ?_, by decide⟩
  rw [adjustExpiries_fuel_stable _ _ _ densityOK_c4 fuel hf]
  decide

/-- C4 (amended): for every start date, month count and holiday set
satisfying the density precondition, the adjusted series is ordered
non-decreasing (duplicates can arise when a holiday Thursday shifts onto the
previous adjusted expiry, so strict ascent does not hold in general). -/
theorem claim_C4_adjusted_sorted (start : Int) (n : Nat) (H : List Int)
    (hd : densityOK H) (fuel : Nat) (hf : 8 ≤ fuel) :
    (adjustExpiries fuel start n H).Pairwise (· ≤ ·) :=
  adjustExpiries_sorted start n H hd fuel hf

theorem claim_C4_adjusted_sorted_witness :
    densityOK ([] : List Int) ∧
      (adjustExpiries 8 (daysFromCivil 2025 10 1) 1 []).Pairwise (· ≤ ·) :=
  ⟨densityOK_nil, claim_C4_adjusted_sorted (daysFromCivil 2025 10 1) 1 [] densityOK_nil 8 le_rfl⟩

/-- C1 counterexample: for the canonical start date 0050-01-01 (year 50),
the constructor's 0..99 → 1900..1999 year remapping makes the generator
produce the Thursdays of January 1950, not of the start date's month. -/
theorem claim_C1_counterexample :
    yearOf (daysFromCivil 50 1 1) = 50 ∧ monthOf (daysFromCivil 50 1 1) = 1 ∧
      generateExpiries (daysFromCivil 50 1 1) 1
        = [daysFromCivil 1950 1 5, daysFromCivil 1950 1 12,
           daysFromCivil 1950 1 19, daysFromCivil 1950 1 26] ∧
      (∀ z ∈ generateExpiries (daysFromCivil 50 1 1) 1, yearOf z = 1950) := by
  decide

/-- C1 (amended): for every start date whose year is outside 0..99 and every
monthsAhead, the raw output contains exactly the Thursdays of the
monthsAhead consecutive months beginning with the start date's month
(rolling over year boundaries), without duplicates and strictly ascending;
it is independent of the start date's day-of-month and empty for
monthsAhead 0. -/
theorem claim_C1_generate_raw (start : Int) (n : Nat)
    (hy : yearOf start < 0 ∨ 99 < yearOf start) :
    (∀ z, z ∈ generateExpiries start n ↔
        weekday z = 4 ∧ ∃ i : Nat, i < n ∧ monthIdx z = monthIdx start + (i : Int))
    ∧ (generateExpiries start n).Pairwise (· < ·)
    ∧ (∀ s2, yearOf s2 = yearOf start → monthOf s2 = monthOf start →
        generateExpiries s2 n = generateExpiries start n)
    ∧ generateExpiries start 0 = [] := by
  have hfy : jsMakeFullYear (yearOf start) = yearOf start := by
    unfold jsMakeFullYear
    split_ifs with hcase
    · omega
    · rfl
  refine ⟨generateExpiries_mem start n hfy, ?_, ?_, ?_⟩
  · unfold generateExpiries
    exact pairwise_lt_dedupSort _
  · intro s2 h1 h2
    unfold generateExpiries
    simp only [jsLocalDay_utcMidnight]
    rw [h1, h2]
  · rfl

theorem claim_C1_generate_raw_witness :
    (yearOf (daysFromCivil 2025 10 1) < 0 ∨ 99 < yearOf (daysFromCivil 2025 10 1)) ∧
      ((∀ z, z ∈ generateExpiries (daysFromCivil 2025 10 1) 1 ↔
          weekday z = 4 ∧ ∃ i : Nat, i < 1 ∧
            monthIdx z = monthIdx (daysFromCivil 2025 10 1) + (i : Int))
        ∧ (generateExpiries (daysFromCivil 2025 10 1) 1).Pairwise (· < ·)
        ∧ (∀ s2, yearOf s2 = yearOf (daysFromCivil 2025 10 1) →
            monthOf s2 = monthOf (daysFromCivil 2025 10 1) →
            generateExpiries s2 1 = generateExpiries (daysFromCivil 2025 10 1) 1)
        ∧ generateExpiries (daysFromCivil 2025 10 1) 0 = []) :=
  ⟨by decide, claim_C1_generate_raw (daysFromCivil 2025 10 1) 1 (by decide)⟩

/-- C5 counterexample: the finite serial 10^9 lands beyond the `Date` range,
so `parseAnyDate` yields null rather than the epoch-plus-n-days date. -/
theorem claim_C5_counterexample :
    parseAnyDate (RawCell.num 1000000000) = none ∧
      parseAnyDate (RawCell.num 1000000000)
        ≠ some (utcMidnight (daysFromCivil 1899 12 30 + 1000000000)) := by
  decide

/-- C5 (amended): for every integral serial whose resulting time value lies
within the `Date` range, `parseAnyDate` returns exactly the instant
1899-12-30T00:00Z plus n days; non-finite numeric input yields null. -/
theorem claim_C5_serial (n : Int) (h : inTimeRange (fromExcelSerial n)) :
    parseAnyDate (RawCell.num n) = some (utcMidnight (daysFromCivil 1899 12 30 + n))
    ∧ parseAnyDate RawCell.nanNum = none := by
  constructor
  · simp only [parseAnyDate]
    rw [if_pos h]
    unfold fromExcelSerial utcMidnight
    congr 1
    ring
  · rfl

theorem claim_C5_serial_witness :
    inTimeRange (fromExcelSerial 45658) ∧
      (parseAnyDate (RawCell.num 45658) = some (utcMidnight (daysFromCivil 1899 12 30 + 45658))
        ∧ parseAnyDate RawCell.nanNum = none) :=
  ⟨by decide, claim_C5_serial 45658 (by decide)⟩

/-! ## Loader degeneracy helpers (for C6) -/
theorem parse_getD_none : ∀ (row : List RawCell),
    (∀ c ∈ row, parseAnyDate c = none) →
    ∀ col : Nat, parseAnyDate (row.getD col RawCell.empty) = none := by
  intro row
  induction row with
  | nil =>
    intro _ col
    cases col <;> rfl
  | cons a l ih =>
    intro h col
    cases col with
    | zero => exact h a (List.mem_cons_self a l)
    | succ n => exact ih (fun c hc => h c (List.mem_cons_of_mem a hc)) n

theorem count_zero (rows : List (List RawCell))
    (h : ∀ row ∈ rows, ∀ c ∈ row, parseAnyDate c = none) (col : Nat) :
    (rows.filter
      (fun row => (parseAnyDate (row.getD col RawCell.empty)).isSome)).length = 0 := by
  rw [List.length_eq_zero, List.filter_eq_nil_iff]
  intro row hrow
  rw [parse_getD_none row (h row hrow) col]
  exact Bool.false_ne_true

theorem bestColumn_degenerate (rows : List (List RawCell))
    (h : ∀ row ∈ rows, ∀ c ∈ row, parseAnyDate c = none) :
    bestColumn rows = (0, 0) := by
  unfold bestColumn
  dsimp only
  generalize List.range ((rows.map List.length).foldr max 0) = cols
  suffices hgen : ∀ (cols : List Nat) (init : Nat × Nat),
      cols.foldl
        (fun best col =>
          if best.2 < (rows.filter
              (fun row => (parseAnyDate (row.getD col RawCell.empty)).isSome)).length
          then (col, (rows.filter
              (fun row => (parseAnyDate (row.getD col RawCell.empty)).isSome)).length)
          else best)
        init = init by
    exact hgen cols (0, 0)
  intro cols
  induction cols with
  | nil => intro init; rfl
  | cons c cs ih =>
    intro init
    rw [List.foldl_cons, count_zero rows h c, if_neg (Nat.not_lt_zero _)]
    exact ih init

theorem loadXlsx_degenerate (rows : List (List RawCell))
    (h : ∀ row ∈ rows, ∀ c ∈ row, parseAnyDate c = none) :
    loadHolidaysFromXlsx rows = [] := by
  unfold loadHolidaysFromXlsx
  dsimp only
  rw [List.filterMap_eq_nil_iff.mpr fun row hrow => by
    rw [parse_getD_none row (h row hrow) _]
    rfl]
  rfl

/-- C6: the table loader is a total function of the raw table; its output is
always strictly sorted (deduplicated, ascending); and the degenerate tables —
no rows, no columns, or no parseable cell anywhere — produce the empty
holiday set with a zero best-count, not an error. -/
theorem claim_C6_loader_total (rows : List (List RawCell)) :
    (loadHolidaysFromXlsx rows).Pairwise (· < ·)
    ∧ (rows = [] ∨ (∀ row ∈ rows, row = []) ∨
        (∀ row ∈ rows, ∀ c ∈ row, parseAnyDate c = none) →
        loadHolidaysFromXlsx rows = [] ∧ (bestColumn rows).2 = 0) := by
  constructor
  · unfold loadHolidaysFromXlsx
    exact pairwise_lt_dedupSort _
  · intro h
    have hall : ∀ row ∈ rows, ∀ c ∈ row, parseAnyDate c = none := by
      rcases h with rfl | h | h
      · intro r hr
        exact absurd hr (List.not_mem_nil r)
      · intro r hr c hc
        rw [h r hr] at hc
        exact absurd hc (List.not_mem_nil c)
      · exact h
    exact ⟨loadXlsx_degenerate rows hall, by rw [bestColumn_degenerate rows hall]⟩

theorem claim_C6_loader_total_witness :
    (loadHolidaysFromXlsx [[RawCell.txt "hello"], []]).Pairwise (· < ·)
    ∧ loadHolidaysFromXlsx [[RawCell.txt "hello"], []] = []
    ∧ (bestColumn [[RawCell.txt "hello"], []]).2 = 0 :=
  have h := claim_C6_loader_total [[RawCell.txt "hello"], []]
  have hd := h.2 (Or.inr (Or.inr (by decide)))
  ⟨h.1, hd.1, hd.2⟩

/-- C7: the code does not reject structurally invalid generation requests:
a malformed startDate (Invalid Date, NaN components) or a negative
monthsAhead silently produces an empty expiry list with no error, while a
valid request produces a nonempty one. -/
theorem claim_C7_no_rejection :
    generateExpiriesReq none 3 = [] ∧
      generateExpiriesReq (some (daysFromCivil 2025 10 1)) (-2) = [] ∧
      generateExpiriesReq (some (daysFromCivil 2025 10 1)) 1 ≠ [] := by
  decide

/-! ## Fallback and refresh helpers (C8, C9, C10) -/
theorem fallback_pairwise (y : Int) : (fallbackHolidays y).Pairwise (· < ·) := by
  unfold fallbackHolidays
  exact pairwise_lt_dedupSort _

theorem fallback_ne_nil (y : Int) : fallbackHolidays y ≠ [] := by
  unfold fallbackHolidays
  decide

/-- C8 counterexample: `fallbackHolidays` ignores its year argument — for
2024 it returns the (nonempty) 2025 list, not the empty set. -/
theorem claim_C8_counterexample :
    fallbackHolidays 2024 = fallbackHolidays 2025 ∧ fallbackHolidays 2024 ≠ [] := by
  exact ⟨rfl, fallback_ne_nil 2024⟩

/-- C8 (amended): for EVERY year argument, `fallbackHolidays` returns the
hardcoded 2025 list normalized through the date parser, deduplicated and
sorted (the year parameter is never read). -/
theorem claim_C8_fallback (year : Int) :
    fallbackHolidays year
      = [daysFromCivil 2025 2 26, daysFromCivil 2025 3 14, daysFromCivil 2025 3 31,
         daysFromCivil 2025 4 10, daysFromCivil 2025 4 14, daysFromCivil 2025 4 18,
         daysFromCivil 2025 5 1, daysFromCivil 2025 8 15, daysFromCivil 2025 8 27,
         daysFromCivil 2025 10 2, daysFromCivil 2025 10 21, daysFromCivil 2025 10 22,
         daysFromCivil 2025 11 5, daysFromCivil 2025 12 25]
    ∧ (fallbackHolidays year).Pairwise (· < ·) := by
  refine ⟨?_, fallback_pairwise year⟩
  unfold fallbackHolidays
  decide

/-- C9: every refresh ends with a valid holiday set — strictly sorted and
nonempty, never a null-like value — and the fallback is substituted when no
source file exists, when the chosen loader yields an empty set, and when the
load throws. -/
theorem claim_C9_refresh_valid (env : RefreshEnv) (old : List Int) :
    (refreshHolidayCache env old).Pairwise (· < ·)
    ∧ refreshHolidayCache env old ≠ []
    ∧ (env.loadThrows = true → refreshHolidayCache env old = fallbackHolidays env.year)
    ∧ (env.loadThrows = false → env.source = none →
        refreshHolidayCache env old = fallbackHolidays env.year)
    ∧ (∀ rows, env.loadThrows = false → env.source = some (HolidaySource.xlsxFile rows) →
        loadHolidaysFromXlsx rows = [] →
        refreshHolidayCache env old = fallbackHolidays env.year)
    ∧ (∀ lines, env.loadThrows = false → env.source = some (HolidaySource.csvFile lines) →
        loadHolidaysFromCsv lines = [] →
        refreshHolidayCache env old = fallbackHolidays env.year) := by
  obtain ⟨y, src, thr⟩ := env
  unfold refreshHolidayCache
  dsimp only
  cases thr with
  | true =>
    rw [if_pos rfl]
    exact ⟨fallback_pairwise y, fallback_ne_nil y, fun _ => rfl,
      fun h _ => absurd h (by simp), fun _ h _ _ => absurd h (by simp),
      fun _ h _ _ => absurd h (by simp)⟩
  | false =>
    rw [if_neg (by simp)]
    cases src with
    | none =>
      dsimp only
      split_ifs with h0
      · exact ⟨fallback_pairwise y, fallback_ne_nil y, fun h => absurd h (by simp),
          fun _ _ => rfl, fun _ _ h => absurd h (by simp), fun _ _ h => absurd h (by simp)⟩
      · exact ⟨fallback_pairwise y, fallback_ne_nil y, fun h => absurd h (by simp),
          fun _ _ => rfl, fun _ _ h => absurd h (by simp), fun _ _ h => absurd h (by simp)⟩
    | some s =>
      cases s with
      | xlsxFile rows =>
        dsimp only
        split_ifs with h0
        · refine ⟨fallback_pairwise y, fallback_ne_nil y, fun h => absurd h (by simp),
            fun _ h => absurd h (by simp), fun rows2 _ h _ => ?_, fun _ _ h => absurd h (by simp)⟩
          rfl
        · refine ⟨?_, h0, fun h => absurd h (by simp), fun _ h => absurd h (by simp),
            fun rows2 _ hs hl => ?_, fun _ _ h => absurd h (by simp)⟩
          · unfold loadHolidaysFromXlsx
            exact pairwise_lt_dedupSort _
          · injection hs with hs2
            injection hs2 with hs3
            rw [hs3] at h0
            exact absurd hl h0
      | csvFile lines =>
        dsimp only
        split_ifs with h0
        · refine ⟨fallback_pairwise y, fallback_ne_nil y, fun h => absurd h (by simp),
            fun _ h => absurd h (by simp), fun _ _ h => absurd h (by simp),
            fun lines2 _ h _ => ?_⟩
          rfl
        · refine ⟨?_, h0, fun h => absurd h (by simp), fun _ h => absurd h (by simp),
            fun _ _ h => absurd h (by simp), fun lines2 _ hs hl => ?_⟩
          · unfold loadHolidaysFromCsv
            exact pairwise_lt_dedupSort _
          · injection hs with hs2
            injection hs2 with hs3
            rw [hs3] at h0
            exact absurd hl h0

theorem claim_C9_refresh_valid_witness :
    refreshHolidayCache ⟨2025, none, false⟩ [] = fallbackHolidays 2025 ∧
      refreshHolidayCache ⟨2025, none, false⟩ [] ≠ [] :=
  have h := claim_C9_refresh_valid ⟨2025, none, false⟩ []
  ⟨h.2.2.2.1 rfl rfl, h.2.1⟩

/-- C10: when a refresh throws partway through loading, the previously
cached set is not retained: the result is the fallback set for the current
year (nonempty, sorted), identically for every prior cache value. -/
theorem claim_C10_refresh_discards (env : RefreshEnv) (old : List Int)
    (h : env.loadThrows = true) :
    refreshHolidayCache env old = fallbackHolidays env.year
    ∧ (∀ old2, refreshHolidayCache env old2 = refreshHolidayCache env old)
    ∧ fallbackHolidays env.year ≠ []
    ∧ (fallbackHolidays env.year).Pairwise (· < ·) := by
  unfold refreshHolidayCache
  rw [if_pos h]
  exact ⟨rfl, fun old2 => rfl, fallback_ne_nil _, fallback_pairwise _⟩

theorem claim_C10_refresh_discards_witness :
    refreshHolidayCache ⟨2030, none, true⟩ [20000] = fallbackHolidays 2030 ∧
      fallbackHolidays 2030 ≠ [] :=
  have h := claim_C10_refresh_discards ⟨2030, none, true⟩ [20000] rfl
  ⟨h.1, h.2.2.1⟩

end Sensex
